import Mathlib

/-!
Shallow embedding of `src/aphie/main.py`: a declarative CLI argument parser
generator that derives an argparse parser from pydantic schemas and validates
the raw parse result back through the schema system.

The embedding models:
* Python runtime values (`PyVal`), with mutable lists represented as
  references into an explicit heap (`Heap`), so that in-place mutation by
  `MultipleAction.__call__` (`list.extend`) and the aliasing between an
  argparse default and the pydantic `FieldInfo.default` object are faithful;
* the relevant fragment of Python's type objects (`PyType`) together with
  `typing.get_origin` / `typing.get_args`;
* the action resolver `action_from_field_info`, the parser builder
  `add_model_to_parser` / `parser`, a functional model of the argparse
  engine (option scanning, defaults seeding, required checking, subparsers),
  and the pipeline `parse_args`.

External collaborators (argparse's token scanner, pydantic's
`model_validate`) are modelled from their documented behaviour as the spec
describes it, restricted to the features this program uses.
-/

set_option autoImplicit false

namespace Aphie

/-- Python runtime values as they occur in this program.  Mutable lists are
represented by a reference (`listRef`) into an explicit heap; `undefined` is
the `PydanticUndefinedType` sentinel that pydantic stores as the default of a
field that has no default. -/
inductive PyVal where
  | pybool (b : Bool)
  | pyint (n : Int)
  | pystr (s : String)
  | pynone
  | undefined
  | listRef (r : Nat)
deriving DecidableEq, Repr

/-- Heap of mutable Python list objects, indexed by `PyVal.listRef`. -/
abbrev Heap := List (List PyVal)

/-- Reading a list object from the heap. -/
def Heap.getL (h : Heap) (r : Nat) : List PyVal := h.getD r []

/-- Overwriting a list object in the heap (in-place mutation of the object
every alias sees). -/
def Heap.setL (h : Heap) (r : Nat) (xs : List PyVal) : Heap := h.set r xs

/-- Allocating a fresh list object; returns the new heap and the reference. -/
def Heap.alloc (h : Heap) (xs : List PyVal) : Heap × Nat := (h ++ [xs], h.length)

/-- Model of Python's `name.replace("_", "-")` for the single-character
pattern used by the parser builder (a character-wise substitution). -/
def strHyphenate (s : String) : String :=
  ⟨s.data.map (fun c => if c = '_' then '-' else c)⟩

/-- Model of `str.startswith(p)`. -/
def strStartsWith (s p : String) : Bool := p.data.isPrefixOf s.data

/-- Model of dropping the first `n` characters of a string. -/
def strDrop (s : String) (n : Nat) : String := ⟨s.data.drop n⟩

/-- Accumulator loop reading decimal digits. -/
def digitsAcc (l : List Char) (acc : Nat) : Option Nat :=
  match l with
  | [] => some acc
  | c :: rest =>
    if '0'.toNat ≤ c.toNat ∧ c.toNat ≤ '9'.toNat then
      digitsAcc rest (acc * 10 + (c.toNat - '0'.toNat))
    else none

/-- Decimal digits to a natural number; `none` on the empty string. -/
def natOfDigits (l : List Char) : Option Nat :=
  match l with
  | [] => none
  | _ :: _ => digitsAcc l 0

/-- Model of Python's `int(token)` on the decimal token shapes a CLI passes
(an optional leading minus sign followed by digits). -/
def strToInt? (s : String) : Option Int :=
  match s.data with
  | '-' :: rest => (natOfDigits rest).map (fun n => -(n : Int))
  | l => (natOfDigits l).map (fun n => (n : Int))

/-- The fragment of Python type objects this program inspects: plain types
(`prim "bool"`, `prim "int"`, `prim "str"`, `prim "NoneType"`, ...), the bare
type alias `Multiple`, a subscripted `Multiple[T]`, the class
`types.UnionType` itself, and a binary union `A | B`. -/
inductive PyType where
  | prim (name : String)
  | multipleAlias
  | multipleOf (t : PyType)
  | unionCls
  | unionOf (a b : PyType)
deriving DecidableEq, Repr

/-- Model of `typing.get_origin`: the generic origin of a subscripted type,
`none` for a non-generic type.  The origin of `Multiple[T]` is the alias
`Multiple`; the origin of a union is the class `types.UnionType`. -/
def get_origin : PyType → Option PyType
  | .multipleOf _ => some .multipleAlias
  | .unionOf _ _ => some .unionCls
  | _ => none

/-- Model of `typing.get_args`: the type arguments of a subscripted type. -/
def get_args : PyType → List PyType
  | .multipleOf t => [t]
  | .unionOf a b => [a, b]
  | _ => []

/-- Argparse action classes (behaviors) occurring in this program:
`argparse.BooleanOptionalAction`, `MultipleAction`, the class produced by
`optional_action(t)` (which closes over the full declared type `t`),
`argparse._StoreAction`, and the test suite's custom `StoreTrueAction`. -/
inductive PyAction where
  | booleanOptional
  | multipleAction
  | optionalAction (t : PyType)
  | storeAction
  | customStoreTrue
deriving DecidableEq, Repr

/-- Model of the `ActionModifiers` mapping: an association list from a type
(or composite-type shape) to a behavior-producing function. -/
abbrev ActionModifiers := List (PyType × (PyType → PyAction))

/-- Dictionary lookup in a modifiers mapping. -/
def lookupMod (m : ActionModifiers) (k : PyType) : Option (PyType → PyAction) :=
  match m with
  | [] => none
  | (k', f) :: rest => if k' = k then some f else lookupMod rest k

/-- The built-in behaviors table from `action_from_field_info`:
`{bool: lambda _: argparse.BooleanOptionalAction, Multiple: lambda _: MultipleAction}`. -/
def builtinActions : ActionModifiers :=
  [(.prim "bool", fun _ => .booleanOptional), (.multipleAlias, fun _ => .multipleAction)]

/-- Lookup in the merged table `builtins | dict(modifiers or {})`: caller
entries override built-ins, so the caller mapping is consulted first. -/
def mergedMods (modifiers : ActionModifiers) (k : PyType) : Option (PyType → PyAction) :=
  match lookupMod modifiers k with
  | some f => some f
  | none => lookupMod builtinActions k

/-- The slice of pydantic's `FieldInfo` the program reads: declared type
(`annotation`, `none` when absent), default value (`PyVal.undefined` when the
field has no default), and the optional alias. -/
structure FieldCfg where
  ann : Option PyType
  default : PyVal
  aliasName : Option String
deriving DecidableEq, Repr

/-- Build-time configuration errors: the `assert field.annotation is not None`
in `action_from_field_info`. -/
inductive ConfigError where
  | missingType
deriving DecidableEq, Repr

/-- Embedding of `action_from_field_info` (main.py lines 81-106): resolve the
behavior for one field from its declared type and the merged
built-in/caller-modifier table.  `field.ann` models `field.annotation`. -/
def action_from_field_info (field : FieldCfg) (modifiers : ActionModifiers) :
    Except ConfigError PyAction :=
  match field.ann with
  | none => .error .missingType
  | some ann =>
    match mergedMods modifiers ann with
    | some f => .ok (f ann)
    | none =>
      match get_origin ann, get_args ann with
      | some t, targs =>
        match mergedMods modifiers t with
        | some f => .ok (f ann)
        | none =>
          match t, targs with
          | .unionCls, [_, .prim "NoneType"] => .ok (.optionalAction ann)
          | _, _ => .ok .storeAction
      | none, _ => .ok .storeAction

/-- One registered argument on the argparse engine, as produced by one
`parser.add_argument(...)` call in `add_model_to_parser` (main.py 114-128). -/
structure ArgSpec where
  option : String
  aliases : List String
  dest : String
  action : PyAction
  default : PyVal
  required : Bool
  convType : Option PyType
deriving DecidableEq, Repr

/-- One schema field: its name (the pydantic model attribute) plus the
`FieldInfo` slice. -/
structure SchemaField where
  name : String
  info : FieldCfg
deriving DecidableEq, Repr

/-- A pydantic model, reduced to its ordered `model_fields` listing. -/
abbrev Schema := List SchemaField

/-- The argument registration performed for one field by the loop body of
`add_model_to_parser`: long option from the name with underscores replaced by
hyphens, short alias when declared, `required` iff the default is the
`PydanticUndefined` sentinel, and `type=field.annotation or str` only for the
store action. -/
def specOfField (name : String) (field : FieldCfg) (modifiers : ActionModifiers) :
    Except ConfigError ArgSpec :=
  match action_from_field_info field modifiers with
  | .error e => .error e
  | .ok action =>
    .ok {
      option := "--" ++ strHyphenate name
      aliases := match field.aliasName with
        | some a => ["-" ++ a]
        | none => []
      dest := name
      action := action
      default := field.default
      required := decide (field.default = PyVal.undefined)
      convType := if action = .storeAction then some (field.ann.getD (.prim "str")) else none }

/-- Embedding of `add_model_to_parser` (main.py 109-128): register one
argument per field, in declared order. -/
def addModelToParser (model : Schema) (modifiers : ActionModifiers) :
    Except ConfigError (List ArgSpec) :=
  match model with
  | [] => .ok []
  | f :: rest =>
    match specOfField f.name f.info modifiers with
    | .error e => .error e
    | .ok s =>
      match addModelToParser rest modifiers with
      | .error e => .error e
      | .ok rest' => .ok (s :: rest')

/-- The subparsers registration `parser.add_subparsers(dest="command",
required=True)` together with one sub-parser per configured command. -/
structure SubParsersSpec where
  dest : String
  required : Bool
  choices : List (String × List ArgSpec)
deriving DecidableEq, Repr

/-- A fully built argparse parser: the top-level argument registrations and
the optional subparsers registration. -/
structure ParserCfg where
  args : List ArgSpec
  sub : Option SubParsersSpec
deriving DecidableEq, Repr

/-- String-keyed association-list lookup (Python dict indexing). -/
def lookupStr {α : Type} (l : List (String × α)) (k : String) : Option α :=
  match l with
  | [] => none
  | (k', v) :: rest => if k' = k then some v else lookupStr rest k

/-- Build the per-command sub-parsers (the loop at main.py 141-143),
forwarding the caller modifiers to each subcommand schema. -/
def buildChoices (subs : List (String × Schema)) (actions : ActionModifiers) :
    Except ConfigError (List (String × List ArgSpec)) :=
  match subs with
  | [] => .ok []
  | (c, m) :: rest =>
    match addModelToParser m actions with
    | .error e => .error e
    | .ok a =>
      match buildChoices rest actions with
      | .error e => .error e
      | .ok rest' => .ok ((c, a) :: rest')

/-- Embedding of `parser` (main.py 131-145): build the parser for the global
schema, then register one sub-parser per subcommand.  Note that the source
calls `add_model_to_parser(parser, g)` WITHOUT forwarding `actions` (line
137), so the global schema is always built against the built-in table only;
the caller modifiers reach only the subcommand parsers (line 143). -/
def buildParser (g : Schema) (subcommands : Option (List (String × Schema)))
    (actions : ActionModifiers) : Except ConfigError ParserCfg :=
  match addModelToParser g [] with
  | .error e => .error e
  | .ok gargs =>
    match subcommands with
    | none => .ok { args := gargs, sub := none }
    | some subs =>
      match buildChoices subs actions with
      | .error e => .error e
      | .ok choices =>
        .ok { args := gargs, sub := some { dest := "command", required := true, choices := choices } }

/-- An argparse `Namespace`: a finite mapping from destination name to value. -/
abbrev NS := List (String × PyVal)

/-- Model of `getattr(namespace, dest)` when present. -/
def NS.get (ns : NS) (d : String) : Option PyVal :=
  match ns with
  | [] => none
  | (k, w) :: rest => if k = d then some w else NS.get rest d

/-- Model of `setattr(namespace, dest, v)`. -/
def NS.set (ns : NS) (d : String) (v : PyVal) : NS :=
  match ns with
  | [] => [(d, v)]
  | (k, w) :: rest => if k = d then (k, v) :: rest else (k, w) :: NS.set rest d v

/-- Copying every attribute of `sub` onto `outer` (what `_SubParsersAction`
does with the sub-namespace after the sub-parser ran). -/
def NS.merge (outer sub : NS) : NS :=
  match sub with
  | [] => outer
  | (k, v) :: rest => NS.merge (NS.set outer k v) rest

/-- Model of `dict.pop(key)` / removing a key from the raw mapping. -/
def NS.eraseKey (ns : NS) (d : String) : NS :=
  match ns with
  | [] => []
  | (k, w) :: rest => if k = d then NS.eraseKey rest d else (k, w) :: NS.eraseKey rest d

/-- Seeding a namespace with each registered argument's default, in
registration order, as argparse does before consuming any token (only for
destinations not already present). -/
def seedDefaults (specs : List ArgSpec) (ns : NS) : NS :=
  match specs with
  | [] => ns
  | s :: rest =>
    seedDefaults rest (if (NS.get ns s.dest).isSome then ns else NS.set ns s.dest s.default)

/-- A token argparse treats as an option rather than a value/positional. -/
def isOptionTok (t : String) : Bool := strStartsWith t "-"

/-- Splitting off the leading run of value tokens (used for `nargs="+"`):
returns the values and the remaining suffix starting at the next option. -/
def splitValues (toks : List String) : List String × List String :=
  match toks with
  | [] => ([], [])
  | t :: rest =>
    if isOptionTok t then ([], t :: rest)
    else
      let pr := splitValues rest
      (t :: pr.1, pr.2)

/-- The option strings an argument answers to.  For
`argparse.BooleanOptionalAction` the long option additionally registers its
negated `--no-` variant. -/
def ArgSpec.optionStrings (s : ArgSpec) : List String :=
  match s.action with
  | .booleanOptional => s.option :: ("--no-" ++ strDrop s.option 2) :: s.aliases
  | _ => s.option :: s.aliases

/-- Finding the registered argument an option token refers to. -/
def findSpec (specs : List ArgSpec) (tok : String) : Option ArgSpec :=
  match specs with
  | [] => none
  | s :: rest => if tok ∈ ArgSpec.optionStrings s then some s else findSpec rest tok

/-- Applying an argparse `type=` converter to one raw token.  `none` models
the converter raising, which argparse turns into a fatal exit. -/
def convert (t : PyType) (s : String) : Option PyVal :=
  match t with
  | .prim "int" => (strToInt? s).map PyVal.pyint
  | .prim "str" => some (.pystr s)
  | .prim "Path" => some (.pystr s)
  | _ => none

/-- The first type argument of a composite (the `it` that
`optional_action` extracts with `typing.get_args` and installs as the
converter for its single optional token). -/
def firstArg (t : PyType) : PyType :=
  match get_args t with
  | a :: _ => a
  | [] => t

/-- Embedding of `MultipleAction.__call__` (main.py 58-66):
`current = getattr(namespace, dest, None)`; when `current` is `None` or the
`PydanticUndefined` sentinel a fresh empty list is allocated; the values are
then appended IN PLACE (`current.extend(values)`), mutating the heap cell —
and thereby every alias of it, including a shared default object. -/
def multipleCall (ns : NS) (h : Heap) (dest : String) (values : List PyVal) :
    NS × Heap :=
  match (NS.get ns dest).getD .pynone with
  | .pynone =>
    let pr := Heap.alloc h values
    (NS.set ns dest (.listRef pr.2), pr.1)
  | .undefined =>
    let pr := Heap.alloc h values
    (NS.set ns dest (.listRef pr.2), pr.1)
  | .listRef r => (NS.set ns dest (.listRef r), Heap.setL h r (Heap.getL h r ++ values))
  | v => (NS.set ns dest v, h)

/-- The post-scan required-argument check: every argument registered with
`required=True` must have had its action invoked. -/
def requiredCheck (specs : List ArgSpec) (seen : List String) : Bool :=
  specs.all (fun s => !s.required || decide (s.dest ∈ seen))

/-- Engine-level failures: `exit` is argparse's fatal exit (SystemExit);
`fuelOut` is an artifact of the fuel-indexed recursion and is proved
unreachable for sufficient fuel (`scanTokens_no_fuelOut`). -/
inductive ScanErr where
  | exit
  | fuelOut
deriving DecidableEq, Repr

/-- Functional model of argparse's token consumption for the feature set this
program registers: long/short optional arguments with the five action kinds,
plus an optional required subparsers positional.  `seen` accumulates the
destinations of the actions that were actually invoked (argparse's
`seen_actions`), which the required-argument check consults afterwards.

The recursion is fuel-indexed (structural, so concrete runs reduce inside the
kernel); every recursive call consumes at least one token, so any fuel
exceeding the token count behaves identically. -/
def scanTokens (fuel : Nat) (specs : List ArgSpec) (sub : Option SubParsersSpec)
    (ns : NS) (h : Heap) (seen : List String) (toks : List String) :
    Except ScanErr (NS × Heap × List String) :=
  match fuel with
  | 0 => .error .fuelOut
  | fuel + 1 =>
    match toks with
    | [] => .ok (ns, h, seen)
    | t :: rest =>
      if isOptionTok t then
        match findSpec specs t with
        | none => .error .exit
        | some s =>
          match s.action with
          | .booleanOptional =>
            scanTokens fuel specs sub
              (NS.set ns s.dest (.pybool (!strStartsWith t "--no-"))) h (s.dest :: seen) rest
          | .multipleAction =>
            let pr := splitValues rest
            if pr.1.isEmpty then .error .exit
            else
              let res := multipleCall ns h s.dest (pr.1.map PyVal.pystr)
              scanTokens fuel specs sub res.1 res.2 (s.dest :: seen) pr.2
          | .optionalAction ty =>
            match rest with
            | [] => scanTokens fuel specs sub (NS.set ns s.dest .pynone) h (s.dest :: seen) []
            | v :: rest' =>
              if isOptionTok v then
                scanTokens fuel specs sub (NS.set ns s.dest .pynone) h (s.dest :: seen) rest
              else
                match convert (firstArg ty) v with
                | none => .error .exit
                | some pv => scanTokens fuel specs sub (NS.set ns s.dest pv) h (s.dest :: seen) rest'
          | .storeAction =>
            match rest with
            | [] => .error .exit
            | v :: rest' =>
              if isOptionTok v then .error .exit
              else
                match s.convType with
                | none => scanTokens fuel specs sub (NS.set ns s.dest (.pystr v)) h (s.dest :: seen) rest'
                | some ty =>
                  match convert ty v with
                  | none => .error .exit
                  | some pv => scanTokens fuel specs sub (NS.set ns s.dest pv) h (s.dest :: seen) rest'
          | .customStoreTrue =>
            match rest with
            | [] => .error .exit
            | v :: rest' =>
              if isOptionTok v then .error .exit
              else scanTokens fuel specs sub (NS.set ns s.dest (.pybool true)) h (s.dest :: seen) rest'
      else
        match sub with
        | none => .error .exit
        | some sp =>
          match lookupStr sp.choices t with
          | none => .error .exit
          | some subSpecs =>
            match scanTokens fuel subSpecs none (seedDefaults subSpecs []) h [] rest with
            | .error e => .error e
            | .ok (subns, h', subseen) =>
              if requiredCheck subSpecs subseen then
                .ok (NS.merge (NS.set ns sp.dest (.pystr t)) subns, h', sp.dest :: seen)
              else .error .exit

/-- Model of `argparse.ArgumentParser.parse_args` for a built parser: seed
defaults (including the subparsers destination, which argparse seeds with
`None`), scan the tokens, then enforce required arguments and the required
subcommand selection. -/
def engineParse (p : ParserCfg) (h : Heap) (toks : List String) :
    Except ScanErr (NS × Heap) :=
  let ns0 := seedDefaults p.args []
  let ns1 := match p.sub with
    | some sp => if (NS.get ns0 sp.dest).isSome then ns0 else NS.set ns0 sp.dest .pynone
    | none => ns0
  match scanTokens (toks.length + 1) p.args p.sub ns1 h [] toks with
  | .error e => .error e
  | .ok (ns, h', seen) =>
    if requiredCheck p.args seen then
      match p.sub with
      | some sp => if sp.required && !(decide (sp.dest ∈ seen)) then .error .exit else .ok (ns, h')
      | none => .ok (ns, h')
    else .error .exit

/-- Validated (typed) values as they live inside a constructed pydantic
model instance.  Lists are materialised (pydantic copies the raw sequence
into the instance), so a `VVal` is a snapshot independent of the heap. -/
inductive VVal where
  | vbool (b : Bool)
  | vint (n : Int)
  | vstr (s : String)
  | vnone
  | vlist (xs : List VVal)

/-- Coercing a list of raw values element-wise; fails if any element fails. -/
def coerceMany (f : PyVal → Option VVal) (vs : List PyVal) : Option (List VVal) :=
  match vs with
  | [] => some []
  | v :: rest =>
    match f v, coerceMany f rest with
    | some a, some b => some (a :: b)
    | _, _ => none

/-- Modelled from the spec: the schema system's lax coercion of one raw value
to one non-composite declared type (pydantic is an external collaborator; the
spec only requires that `validate` coerces raw strings to typed values and
raises on mismatch).  Restricted to the atomic types this program's schemas
use. -/
def coerceAtomic (t : PyType) (v : PyVal) : Option VVal :=
  match t, v with
  | .prim "bool", .pybool b => some (.vbool b)
  | .prim "int", .pyint n => some (.vint n)
  | .prim "int", .pystr s => (strToInt? s).map VVal.vint
  | .prim "str", .pystr s => some (.vstr s)
  | .prim "Path", .pystr s => some (.vstr s)
  | _, _ => none

/-- Modelled from the spec: coercion of one raw value to a declared type,
including the composite shapes (`Multiple[T]` dereferences the raw list
object and coerces element-wise; `T | None` accepts `None` or a `T`). -/
def coerceVal (h : Heap) (t : PyType) (v : PyVal) : Option VVal :=
  match t with
  | .multipleOf et =>
    match v with
    | .listRef r => (coerceMany (coerceAtomic et) (Heap.getL h r)).map VVal.vlist
    | _ => none
  | .unionOf a (.prim "NoneType") =>
    match v with
    | .pynone => some .vnone
    | _ => coerceAtomic a v
  | _ => coerceAtomic t v

/-- A validated model instance: the typed value of every schema field. -/
abbrev VModel := List (String × VVal)

/-- Modelled from the spec: the schema system's `validate(mapping) ->
instance` entry point.  Each schema field is looked up by name in the raw
mapping (missing fields fall back to the declared default, a missing required
field is a validation error), its value is coerced to the declared type, and
keys of the mapping that belong to no schema field are silently ignored. -/
def modelValidate (h : Heap) (model : Schema) (m : NS) : Option VModel :=
  match model with
  | [] => some []
  | f :: rest =>
    let raw := match NS.get m f.name with
      | some v => some v
      | none => if f.info.default = PyVal.undefined then none else some f.info.default
    match raw with
    | none => none
    | some v =>
      match f.info.ann with
      | none => none
      | some t =>
        match coerceVal h t v, modelValidate h rest m with
        | some vv, some vm => some ((f.name, vv) :: vm)
        | _, _ => none

/-- Failures of the whole pipeline, by taxonomy: argparse's fatal exit,
build-time configuration errors, pydantic validation errors, and the
`KeyError` when a parsed command has no schema entry. -/
inductive ParseErr where
  | exitErr
  | configErr
  | validationErr
  | keyErr
deriving DecidableEq, Repr

/-- Embedding of `parse_args` (main.py 168-183): build the parser, run the
engine, pop the reserved `command` key when subcommands are configured,
validate the selected subcommand schema against the remaining raw mapping,
and validate the global schema against that same entire remaining mapping.
The heap is threaded through so that a second invocation observes any
mutation the first one made to a shared default object. -/
def parse_args (g : Schema) (subcommands : Option (List (String × Schema)))
    (args : List String) (actions : ActionModifiers) (h : Heap) :
    Except ParseErr ((VModel × Option VModel) × Heap) :=
  match buildParser g subcommands actions with
  | .error _ => .error .configErr
  | .ok p =>
    match engineParse p h args with
    | .error _ => .error .exitErr
    | .ok (ns, h') =>
      match subcommands with
      | none =>
        match modelValidate h' g ns with
        | none => .error .validationErr
        | some gm => .ok ((gm, none), h')
      | some subs =>
        match NS.get ns "command" with
        | some (.pystr c) =>
          let parsed := NS.eraseKey ns "command"
          match lookupStr subs c with
          | none => .error .keyErr
          | some sm =>
            match modelValidate h' sm parsed with
            | none => .error .validationErr
            | some sub =>
              match modelValidate h' g parsed with
              | none => .error .validationErr
              | some gm => .ok ((gm, some sub), h')
        | _ => .error .keyErr

/-- Dispatch precedence exactly as the specification states it, written from
the spec's words for comparison with `action_from_field_info`: (1) exact
declared type found in the merged built-in+modifier table; (2) the type's
generic origin found in that table, or the type is a union of exactly one
type and the absence type, which yields the built-in optional behavior;
(3) otherwise the store behavior as total fallback. -/
def resolveSpec (modifiers : ActionModifiers) (ann : PyType) : PyAction :=
  match mergedMods modifiers ann with
  | some f => f ann
  | none =>
    match get_origin ann with
    | some o =>
      match mergedMods modifiers o with
      | some f => f ann
      | none =>
        match ann with
        | .unionOf _ (.prim "NoneType") => .optionalAction ann
        | _ => .storeAction
    | none => .storeAction

/-! Concrete schemas and inputs taken from the repository's test suite
(`tests/test_parse.py`), used to instantiate the claims. -/

/-- Schema `{custom: bool = False}` from `test_custom_action`. -/
def customSchema : Schema := [⟨"custom", ⟨some (.prim "bool"), .pybool false, none⟩⟩]

/-- The `custom` field's metadata alone. -/
def customField : FieldCfg := ⟨some (.prim "bool"), .pybool false, none⟩

/-- The caller modifiers `{bool: StoreTrueAction}` from `test_custom_action`:
a custom behavior registered for the exact type `bool`. -/
def customMods : ActionModifiers := [(.prim "bool", fun _ => .customStoreTrue)]

/-- Schema `{files: Multiple[str] = []}` from `test_multiple_defaults_empty`.
The declared empty-list default is one shared heap object, referenced by
`listRef 0` of `filesHeap0`. -/
def filesSchema : Schema := [⟨"files", ⟨some (.multipleOf (.prim "str")), .listRef 0, none⟩⟩]

/-- The heap at schema-definition time: the single default list object `[]`. -/
def filesHeap0 : Heap := [[]]

/-- Schema `{tags: Multiple[str]}` (no default, hence required) from
`test_multiple_occurrences_extend`. -/
def tagsSchema : Schema := [⟨"tags", ⟨some (.multipleOf (.prim "str")), .undefined, none⟩⟩]

/-- Global schema `{verbose: bool = False, name: str = "g"}` used to observe
that global validation receives the whole post-pop raw mapping. -/
def globalRunSchema : Schema :=
  [⟨"verbose", ⟨some (.prim "bool"), .pybool false, none⟩⟩,
   ⟨"name", ⟨some (.prim "str"), .pystr "g", none⟩⟩]

/-- Subcommand schema `{name: str}` from `test_with_subcommand`. -/
def runSchema : Schema := [⟨"name", ⟨some (.prim "str"), .undefined, none⟩⟩]

/-- Schema `{required_arg: str}` from `test_required_argument_missing`. -/
def reqSchema : Schema := [⟨"required_arg", ⟨some (.prim "str"), .undefined, none⟩⟩]

/-- The argument registration `specOfField` produces for `required_arg`. -/
def reqArgSpec : ArgSpec :=
  { option := "--required-arg", aliases := [], dest := "required_arg",
    action := .storeAction, default := .undefined, required := true,
    convType := some (.prim "str") }

/-- The parser built for `reqSchema` with no subcommands. -/
def reqParser : ParserCfg := { args := [reqArgSpec], sub := none }

/-- An optional-shaped field `string: str | None = None`. -/
def optField : FieldCfg :=
  ⟨some (.unionOf (.prim "str") (.prim "NoneType")), .pynone, some "s"⟩

/-- A behavior-producing function that distinguishes the composite type
`Multiple[str]` from its component `str`. -/
def c6f : PyType → PyAction := fun t =>
  if t = .multipleOf (.prim "str") then .customStoreTrue else .storeAction

/-- Caller modifiers registering `c6f` for the generic origin `Multiple`. -/
def c6mods : ActionModifiers := [(.multipleAlias, c6f)]

/-- A field declared `Multiple[str]` with no default. -/
def c6field : FieldCfg := ⟨some (.multipleOf (.prim "str")), .undefined, none⟩

/-- A field whose declared type is absent entirely. -/
def badField : FieldCfg := ⟨none, .undefined, none⟩

/-- A schema containing a field with no declared type. -/
def badSchema : Schema := [⟨"bad", badField⟩]

/-- The namespace the engine produces for
`parse_args(globalRunSchema, {run: runSchema}, ["run", "--name", "test"])`. -/
def c3ns : NS :=
  [("verbose", .pybool false), ("name", .pystr "test"), ("command", .pystr "run")]

/-- The parser built for `globalRunSchema` with the `run` subcommand. -/
def c3parser : ParserCfg :=
  { args :=
      [{ option := "--verbose", aliases := [], dest := "verbose",
         action := .booleanOptional, default := .pybool false,
         required := false, convType := none },
       { option := "--name", aliases := [], dest := "name",
         action := .storeAction, default := .pystr "g",
         required := false, convType := some (.prim "str") }],
    sub := some
      { dest := "command", required := true,
        choices :=
          [("run",
            [{ option := "--name", aliases := [], dest := "name",
               action := .storeAction, default := .undefined,
               required := true, convType := some (.prim "str") }])] } }

/-! Helper lemmas. -/

theorem splitValues_snd_length (l : List String) : (splitValues l).2.length ≤ l.length := by
  induction l with
  | nil => simp [splitValues]
  | cons t rest ih =>
    simp only [splitValues]
    split
    · simp
    · simpa using Nat.le_succ_of_le ih

theorem mem_splitValues_snd (l : List String) (x : String)
    (hx : x ∈ (splitValues l).2) : x ∈ l := by
  induction l with
  | nil => simp [splitValues] at hx
  | cons t rest ih =>
    simp only [splitValues] at hx
    revert hx
    split
    · exact fun hx => hx
    · exact fun hx => List.mem_cons_of_mem t (ih hx)

theorem findSpec_mem (specs : List ArgSpec) (tok : String) (s : ArgSpec)
    (hf : findSpec specs tok = some s) : s ∈ specs ∧ tok ∈ ArgSpec.optionStrings s := by
  induction specs with
  | nil => simp [findSpec] at hf
  | cons a rest ih =>
    simp only [findSpec] at hf
    split at hf
    · cases hf
      exact ⟨List.mem_cons_self _ _, by assumption⟩
    · obtain ⟨h1, h2⟩ := ih hf
      exact ⟨List.mem_cons_of_mem a h1, h2⟩

theorem NS.get_set (ns : NS) (d : String) (v : PyVal) :
    NS.get (NS.set ns d v) d = some v := by
  induction ns with
  | nil => simp [NS.set, NS.get]
  | cons p rest ih =>
    obtain ⟨k, w⟩ := p
    simp only [NS.set]
    split
    · simp_all [NS.get]
    · simp_all [NS.get]

theorem Heap.getL_alloc (h : Heap) (xs : List PyVal) :
    Heap.getL (Heap.alloc h xs).1 (Heap.alloc h xs).2 = xs := by
  simp only [Heap.alloc, Heap.getL]
  induction h with
  | nil => simp
  | cons a rest ih => simp

theorem Heap.getL_setL (h : Heap) (r : Nat) (xs : List PyVal) (hr : r < h.length) :
    Heap.getL (Heap.setL h r xs) r = xs := by
  induction h generalizing r with
  | nil => simp at hr
  | cons a rest ih =>
    cases r with
    | zero => simp [Heap.setL, Heap.getL]
    | succ n =>
      have := ih n (by simpa using Nat.lt_of_succ_lt_succ hr)
      simpa [Heap.setL, Heap.getL] using this

theorem requiredCheck_eq_false (specs : List ArgSpec) (seen : List String) (s : ArgSpec)
    (hs : s ∈ specs) (hreq : s.required = true) (hd : s.dest ∉ seen) :
    requiredCheck specs seen = false := by
  cases hall : requiredCheck specs seen with
  | false => rfl
  | true =>
    exfalso
    unfold requiredCheck at hall
    have := List.all_eq_true.mp hall s hs
    rw [hreq] at this
    simp at this
    exact hd this

theorem scanTokens_no_fuelOut :
    ∀ (fuel : Nat) (toks : List String) (specs : List ArgSpec)
      (sub : Option SubParsersSpec) (ns : NS) (h : Heap) (seen : List String),
      toks.length < fuel →
      scanTokens fuel specs sub ns h seen toks ≠ .error .fuelOut := by
  intro fuel
  induction fuel with
  | zero =>
    intro toks specs sub ns h seen hlt
    exact absurd hlt (Nat.not_lt_zero _)
  | succ n ih =>
    intro toks specs sub ns h seen hlt
    match toks with
    | [] => simp [scanTokens]
    | t :: rest =>
      have hrest : rest.length < n := Nat.lt_of_succ_lt_succ hlt
      simp only [scanTokens]
      split
      · -- option token
        split
        · simp
        · -- findSpec returned some s
          split
          · exact ih rest specs sub _ h _ hrest
          · -- multipleAction
            split
            · simp
            · exact ih _ specs sub _ _ _
                (Nat.lt_of_le_of_lt (splitValues_snd_length rest) hrest)
          · -- optionalAction
            split
            · exact ih [] specs sub _ h _ hrest
            · split
              · exact ih _ specs sub _ h _ hrest
              · split
                · simp
                · exact ih _ specs sub _ h _ (Nat.lt_of_succ_lt hrest)
          · -- storeAction
            split
            · simp
            · split
              · simp
              · split
                · exact ih _ specs sub _ h _ (Nat.lt_of_succ_lt hrest)
                · split
                  · simp
                  · exact ih _ specs sub _ h _ (Nat.lt_of_succ_lt hrest)
          · -- customStoreTrue
            split
            · simp
            · split
              · simp
              · exact ih _ specs sub _ h _ (Nat.lt_of_succ_lt hrest)
      · -- positional token
        split
        · simp
        · split
          · simp
          · split
            · -- sub-parser scan errored
              rename_i e heq
              cases e with
              | exit => simp
              | fuelOut => exact absurd heq (ih rest _ none _ h [] hrest)
            · split
              · simp
              · simp

theorem scanTokens_not_seen (d : String) :
    ∀ (fuel : Nat) (toks : List String) (specs : List ArgSpec)
      (sub : Option SubParsersSpec) (ns : NS) (h : Heap) (seen : List String)
      (ns' : NS) (h' : Heap) (seen' : List String),
      scanTokens fuel specs sub ns h seen toks = .ok (ns', h', seen') →
      d ∉ seen →
      (∀ t ∈ toks, ∀ s ∈ specs, t ∈ ArgSpec.optionStrings s → s.dest ≠ d) →
      (∀ sp, sub = some sp → d ≠ sp.dest ∨ ∀ t ∈ toks, lookupStr sp.choices t = none) →
      d ∉ seen' := by
  intro fuel
  induction fuel with
  | zero =>
    intro toks specs sub ns h seen ns' h' seen' hok
    simp [scanTokens] at hok
  | succ n ih =>
    intro toks specs sub ns h seen ns' h' seen' hok hseen hopt hsub
    match toks with
    | [] =>
      simp only [scanTokens, Except.ok.injEq, Prod.mk.injEq] at hok
      obtain ⟨-, -, h3⟩ := hok
      exact h3 ▸ hseen
    | t :: rest =>
      simp only [scanTokens] at hok
      split at hok
      · -- option token
        split at hok
        · simp at hok
        · rename_i s heq
          have hmem := findSpec_mem specs t s heq
          have hdd : s.dest ≠ d := hopt t (List.mem_cons_self t rest) s hmem.1 hmem.2
          have hseen2 : d ∉ s.dest :: seen := by
            intro hc
            rcases List.mem_cons.mp hc with hc | hc
            · exact hdd hc.symm
            · exact hseen hc
          have hoptRest : ∀ t' ∈ rest, ∀ s2 ∈ specs, t' ∈ ArgSpec.optionStrings s2 → s2.dest ≠ d :=
            fun t' ht' => hopt t' (List.mem_cons_of_mem t ht')
          have hsubRest : ∀ sp, sub = some sp →
              d ≠ sp.dest ∨ ∀ t' ∈ rest, lookupStr sp.choices t' = none :=
            fun sp hsp => (hsub sp hsp).imp (fun x => x)
              (fun hall t' ht' => hall t' (List.mem_cons_of_mem t ht'))
          split at hok
          · -- booleanOptional
            exact ih rest specs sub _ _ _ ns' h' seen' hok hseen2 hoptRest hsubRest
          · -- multipleAction
            split at hok
            · simp at hok
            · refine ih _ specs sub _ _ _ ns' h' seen' hok hseen2 ?_ ?_
              · exact fun t' ht' =>
                  hoptRest t' (mem_splitValues_snd rest t' ht')
              · exact fun sp hsp => (hsubRest sp hsp).imp (fun x => x)
                  (fun hall t' ht' => hall t' (mem_splitValues_snd rest t' ht'))
          · -- optionalAction
            split at hok
            · exact ih [] specs sub _ _ _ ns' h' seen' hok hseen2
                (fun t' ht' => absurd ht' (List.not_mem_nil t'))
                (fun sp hsp => (hsubRest sp hsp).imp (fun x => x)
                  (fun hall t' ht' => absurd ht' (List.not_mem_nil t')))
            · split at hok
              · exact ih _ specs sub _ _ _ ns' h' seen' hok hseen2 hoptRest hsubRest
              · split at hok
                · simp at hok
                · refine ih _ specs sub _ _ _ ns' h' seen' hok hseen2 ?_ ?_
                  · exact fun t' ht' => hoptRest t' (List.mem_cons_of_mem _ ht')
                  · exact fun sp hsp => (hsubRest sp hsp).imp (fun x => x)
                      (fun hall t' ht' => hall t' (List.mem_cons_of_mem _ ht'))
          · -- storeAction
            split at hok
            · simp at hok
            · split at hok
              · simp at hok
              · split at hok
                · refine ih _ specs sub _ _ _ ns' h' seen' hok hseen2 ?_ ?_
                  · exact fun t' ht' => hoptRest t' (List.mem_cons_of_mem _ ht')
                  · exact fun sp hsp => (hsubRest sp hsp).imp (fun x => x)
                      (fun hall t' ht' => hall t' (List.mem_cons_of_mem _ ht'))
                · split at hok
                  · simp at hok
                  · refine ih _ specs sub _ _ _ ns' h' seen' hok hseen2 ?_ ?_
                    · exact fun t' ht' => hoptRest t' (List.mem_cons_of_mem _ ht')
                    · exact fun sp hsp => (hsubRest sp hsp).imp (fun x => x)
                        (fun hall t' ht' => hall t' (List.mem_cons_of_mem _ ht'))
          · -- customStoreTrue
            split at hok
            · simp at hok
            · split at hok
              · simp at hok
              · refine ih _ specs sub _ _ _ ns' h' seen' hok hseen2 ?_ ?_
                · exact fun t' ht' => hoptRest t' (List.mem_cons_of_mem _ ht')
                · exact fun sp hsp => (hsubRest sp hsp).imp (fun x => x)
                    (fun hall t' ht' => hall t' (List.mem_cons_of_mem _ ht'))
      · -- positional token
        split at hok
        · simp at hok
        · rename_i sp
          split at hok
          · simp at hok
          · rename_i subSpecs hlk
            split at hok
            · simp at hok
            · split at hok
              · simp only [Except.ok.injEq, Prod.mk.injEq] at hok
                obtain ⟨-, -, h3⟩ := hok
                have hdsp : d ≠ sp.dest := by
                  rcases hsub sp rfl with hx | hall
                  · exact hx
                  · exact absurd hlk (by simp [hall t (List.mem_cons_self t rest)])
                rw [← h3]
                intro hc
                rcases List.mem_cons.mp hc with hc | hc
                · exact hdsp hc
                · exact hseen hc
              · simp at hok

theorem action_from_field_info_ok (field : FieldCfg) (m : ActionModifiers)
    (ann : PyType) (hann : field.ann = some ann) :
    ∃ a, action_from_field_info field m = .ok a := by
  simp only [action_from_field_info, hann]
  split
  · exact ⟨_, rfl⟩
  · split
    · split
      · exact ⟨_, rfl⟩
      · split <;> exact ⟨_, rfl⟩
    · exact ⟨_, rfl⟩

theorem addModelToParser_error (g : Schema) (m : ActionModifiers) (f : SchemaField)
    (hf : f ∈ g) (hann : f.info.ann = none) :
    addModelToParser g m = .error .missingType := by
  induction g with
  | nil => cases hf
  | cons a rest ih =>
    rcases List.mem_cons.mp hf with rfl | hmem
    · simp [addModelToParser, specOfField, action_from_field_info, hann]
    · cases hhead : specOfField a.name a.info m with
      | error e =>
        cases e
        simp [addModelToParser, hhead]
      | ok s =>
        simp [addModelToParser, hhead, ih hmem]

/-! Claim theorems. -/

/-- C1: the claim says a caller-supplied modifier for `bool` overrides the
built-in flag behavior for every schema the pipeline builds, including the
global schema.  The code contradicts this: `parser()` builds the global
schema without forwarding `actions`, so the pipeline registers the built-in
`BooleanOptionalAction` for the global `custom: bool = False` field even
though the resolver, when handed the modifiers, would return the custom
behavior; parsing `["--custom"]` therefore runs the built-in flag behavior. -/
theorem C1_global_modifiers_dropped :
    buildParser customSchema none customMods =
      .ok { args := [{ option := "--custom", aliases := [], dest := "custom",
                       action := .booleanOptional, default := .pybool false,
                       required := false, convType := none }], sub := none } ∧
    action_from_field_info customField customMods = .ok .customStoreTrue ∧
    parse_args customSchema none ["--custom"] customMods [] =
      .ok (([("custom", .vbool true)], none), []) :=
  ⟨rfl, rfl, rfl⟩

/-- C2: the claim says two separate pipeline invocations on the same token
sequence yield equal results and no invocation leaks state into the next.
The code contradicts this for a repeated-value field with an empty-list
default: `MultipleAction.__call__` extends the default list object in place,
so the first invocation of `parse_args` on `["--files", "a"]` mutates the
shared default (heap cell 0 becomes `["a"]`) and returns `files = ["a"]`,
while the second invocation, observing the mutated heap, returns
`files = ["a", "a"]`. -/
theorem C2_second_invocation_differs :
    parse_args filesSchema none ["--files", "a"] [] filesHeap0 =
      .ok (([("files", .vlist [.vstr "a"])], none), [[.pystr "a"]]) ∧
    parse_args filesSchema none ["--files", "a"] [] [[.pystr "a"]] =
      .ok (([("files", .vlist [.vstr "a", .vstr "a"])], none),
        [[.pystr "a", .pystr "a"]]) :=
  ⟨rfl, rfl⟩

/-- C4: for every field whose declared type is present, behavior resolution
follows the claimed precedence with first match winning — (1) exact declared
type in the merged table, (2) the generic origin in that table, or the
union-with-absence shape yielding the built-in optional behavior, (3) the
store fallback — and exactly one behavior is always produced (`.ok`). -/
theorem C4_dispatch_precedence (field : FieldCfg) (modifiers : ActionModifiers)
    (ann : PyType) (hann : field.ann = some ann) :
    action_from_field_info field modifiers = .ok (resolveSpec modifiers ann) := by
  simp only [action_from_field_info, resolveSpec, hann]
  cases hm : mergedMods modifiers ann with
  | some f => rfl
  | none =>
    cases ann with
    | prim s => rfl
    | multipleAlias => rfl
    | unionCls => rfl
    | multipleOf t =>
      simp only [get_origin]
      cases hm2 : mergedMods modifiers PyType.multipleAlias with
      | some f => rfl
      | none => rfl
    | unionOf a b =>
      simp only [get_origin]
      cases hm2 : mergedMods modifiers PyType.unionCls with
      | some f => rfl
      | none =>
        cases b with
        | prim s =>
          by_cases hs : s = "NoneType"
          · subst hs; rfl
          · simp [get_args, hs]
        | multipleAlias => rfl
        | multipleOf t => rfl
        | unionCls => rfl
        | unionOf x y => rfl

/-- C4 witness: the optional-shaped field `string: str | None` resolves, with
no modifiers, to what the spec's dispatch produces at that type. -/
theorem C4_dispatch_precedence_witness :
    action_from_field_info optField [] =
      .ok (resolveSpec [] (.unionOf (.prim "str") (.prim "NoneType"))) :=
  C4_dispatch_precedence optField [] (.unionOf (.prim "str") (.prim "NoneType")) rfl

/-- C5: the multiple-occurrence behavior accumulates: when the stored value
is a list object, a further occurrence appends the new values to it in place
and never replaces the earlier elements; and the concrete run
`["--tags", "a", "b", "--tags", "c"]` on `tags: Multiple[str]` produces the
ordered sequence `["a", "b", "c"]` through the whole pipeline. -/
theorem C5_multiple_accumulates :
    (∀ (ns : NS) (h : Heap) (dest : String) (r : Nat) (vs : List PyVal),
        NS.get ns dest = some (.listRef r) → r < h.length →
        NS.get (multipleCall ns h dest vs).1 dest = some (.listRef r) ∧
        Heap.getL (multipleCall ns h dest vs).2 r = Heap.getL h r ++ vs) ∧
    parse_args tagsSchema none ["--tags", "a", "b", "--tags", "c"] [] [] =
      .ok (([("tags", .vlist [.vstr "a", .vstr "b", .vstr "c"])], none),
        [[.pystr "a", .pystr "b", .pystr "c"]]) := by
  constructor
  · intro ns h dest r vs hget hr
    simp only [multipleCall, hget, Option.getD_some]
    exact ⟨NS.get_set ns dest _, Heap.getL_setL h r _ hr⟩
  · rfl

/-- C5 witness: one further `--tags b` occurrence on a field currently
holding the list `["a"]` appends, yielding `["a"] ++ ["b"]`. -/
theorem C5_multiple_accumulates_witness :
    NS.get (multipleCall [("tags", .listRef 0)] [[.pystr "a"]] "tags" [.pystr "b"]).1 "tags" =
      some (.listRef 0) ∧
    Heap.getL (multipleCall [("tags", .listRef 0)] [[.pystr "a"]] "tags" [.pystr "b"]).2 0 =
      [.pystr "a"] ++ [.pystr "b"] :=
  C5_multiple_accumulates.1 [("tags", .listRef 0)] [[.pystr "a"]] "tags" 0 [.pystr "b"]
    rfl (by decide)

/-- C6 counterexample: the claim says a composite type whose origin matches a
registered modifier has its behavior constructed by calling the
behavior-producing function with the COMPONENT type.  With `c6f` registered
for the origin `Multiple` and a field declared `Multiple[str]`, the code does
not return `c6f` applied to the component `str` (it applies `c6f` to the full
composite `Multiple[str]`, yielding a different behavior). -/
theorem C6_component_type_counterexample :
    action_from_field_info c6field c6mods ≠ .ok (c6f (.prim "str")) := by
  intro hcon
  have h1 : action_from_field_info c6field c6mods = .ok .customStoreTrue := rfl
  have h2 : c6f (.prim "str") = .storeAction := rfl
  rw [h1, h2] at hcon
  simp at hcon

/-- C6 amended: when a field's declared composite type has no exact entry but
its generic origin is found in the merged table, the resolved behavior is the
behavior-producing function applied to the FULL declared annotation (the
composite type), not to its component. -/
theorem C6_constructed_with_full_annotation (modifiers : ActionModifiers)
    (field : FieldCfg) (ann t : PyType) (f : PyType → PyAction)
    (hann : field.ann = some ann)
    (hexact : mergedMods modifiers ann = none)
    (horigin : get_origin ann = some t)
    (hmod : mergedMods modifiers t = some f) :
    action_from_field_info field modifiers = .ok (f ann) := by
  simp [action_from_field_info, hann, hexact, horigin, hmod]

/-- C6 amended witness: the `Multiple[str]` field under `c6mods` resolves to
`c6f` applied to the full composite type. -/
theorem C6_constructed_with_full_annotation_witness :
    action_from_field_info c6field c6mods = .ok (c6f (.multipleOf (.prim "str"))) :=
  C6_constructed_with_full_annotation c6mods c6field (.multipleOf (.prim "str"))
    .multipleAlias c6f rfl rfl rfl rfl

/-- C3: when subcommand schemas are configured and the engine produced a raw
mapping, `parse_args` pops the reserved `command` key, selects the subcommand
schema named by its value, validates that schema against the remaining raw
mapping, and validates the global schema against that SAME entire remaining
mapping (no filtering down to the global schema's fields). -/
theorem C3_global_validates_full_remainder
    (g : Schema) (subs : List (String × Schema)) (args : List String)
    (actions : ActionModifiers) (h : Heap) (p : ParserCfg) (ns : NS) (h' : Heap)
    (c : String) (sm : Schema) (sv gv : VModel)
    (hb : buildParser g (some subs) actions = .ok p)
    (he : engineParse p h args = .ok (ns, h'))
    (hc : NS.get ns "command" = some (.pystr c))
    (hs : lookupStr subs c = some sm)
    (hsv : modelValidate h' sm (NS.eraseKey ns "command") = some sv)
    (hgv : modelValidate h' g (NS.eraseKey ns "command") = some gv) :
    parse_args g (some subs) args actions h = .ok ((gv, some sv), h') := by
  simp [parse_args, hb, he, hc, hs, hsv, hgv]

/-- C3 witness: the `run` subcommand's `--name test` lands in the raw
remainder handed to global validation, so the global schema's own `name`
field (default `"g"`) validates to `"test"`. -/
theorem C3_global_validates_full_remainder_witness :
    parse_args globalRunSchema (some [("run", runSchema)]) ["run", "--name", "test"] [] [] =
      .ok (([("verbose", .vbool false), ("name", .vstr "test")],
        some [("name", .vstr "test")]), []) :=
  C3_global_validates_full_remainder globalRunSchema [("run", runSchema)]
    ["run", "--name", "test"] [] [] c3parser c3ns [] "run" runSchema
    [("name", .vstr "test")] [("verbose", .vbool false), ("name", .vstr "test")]
    rfl rfl rfl rfl rfl rfl

/-- C7: an argument is registered as required exactly when its field has no
default (the `PydanticUndefined` sentinel), and running the engine on an
argument list in which no token names a required argument's option strings
(and the subparsers machinery cannot mark its destination either) ends in
argparse's fatal exit, never a silent success. -/
theorem C7_required_iff_no_default :
    (∀ (name : String) (field : FieldCfg) (modifiers : ActionModifiers) (spec : ArgSpec),
        specOfField name field modifiers = .ok spec →
        (spec.required = true ↔ field.default = PyVal.undefined)) ∧
    (∀ (p : ParserCfg) (h : Heap) (toks : List String) (s : ArgSpec),
        s ∈ p.args → s.required = true →
        (∀ t ∈ toks, ∀ s2 ∈ p.args, t ∈ ArgSpec.optionStrings s2 → s2.dest ≠ s.dest) →
        (∀ sp, p.sub = some sp → s.dest ≠ sp.dest ∨ ∀ t ∈ toks, lookupStr sp.choices t = none) →
        engineParse p h toks = .error .exit) := by
  constructor
  · intro name field modifiers spec hok
    unfold specOfField at hok
    split at hok
    · simp at hok
    · simp only [Except.ok.injEq] at hok
      subst hok
      simp [decide_eq_true_iff]
  · intro p h toks s hs hreq hopt hsub
    simp only [engineParse]
    split
    · rename_i e heqscan
      cases e with
      | exit => rfl
      | fuelOut => exact absurd heqscan (scanTokens_no_fuelOut _ _ _ _ _ _ _ (Nat.lt_succ_self _))
    · rename_i ns2 h2 seen2 heqscan
      have hnot : s.dest ∉ seen2 :=
        scanTokens_not_seen s.dest _ toks p.args p.sub _ h [] ns2 h2 seen2 heqscan
          (List.not_mem_nil _) hopt hsub
      have hrc := requiredCheck_eq_false p.args seen2 s hs hreq hnot
      simp [hrc]

/-- C7 witness: `{required_arg: str}` (no default) is registered required,
and parsing `[]` exits fatally. -/
theorem C7_required_iff_no_default_witness :
    (reqArgSpec.required = true ↔ (⟨some (.prim "str"), .undefined, none⟩ : FieldCfg).default = PyVal.undefined) ∧
    engineParse reqParser [] [] = .error .exit :=
  ⟨C7_required_iff_no_default.1 "required_arg" ⟨some (.prim "str"), .undefined, none⟩ [] reqArgSpec rfl,
   C7_required_iff_no_default.2 reqParser [] [] reqArgSpec (by decide) rfl
     (fun t ht => absurd ht (List.not_mem_nil t))
     (fun sp hsp => by simp [reqParser] at hsp)⟩

/-- C8: whenever a subcommand mapping is supplied, the built parser stores
the command selection under the reserved identifier `command` and marks it
required, and running the engine on an argument list containing no
configured command name (and no option writing to that destination) ends in
argparse's fatal exit — there is no default command. -/
theorem C8_subcommand_mandatory
    (g : Schema) (subs : List (String × Schema)) (actions : ActionModifiers)
    (p : ParserCfg) (h : Heap) (toks : List String)
    (hb : buildParser g (some subs) actions = .ok p) :
    (∃ sp, p.sub = some sp ∧ sp.dest = "command" ∧ sp.required = true) ∧
    ((∀ t ∈ toks, ∀ s ∈ p.args, t ∈ ArgSpec.optionStrings s → s.dest ≠ "command") →
     (∀ sp, p.sub = some sp → ∀ t ∈ toks, lookupStr sp.choices t = none) →
     engineParse p h toks = .error .exit) := by
  have hpsub : ∃ sp, p.sub = some sp ∧ sp.dest = "command" ∧ sp.required = true := by
    unfold buildParser at hb
    split at hb
    · exact absurd hb (by simp)
    · split at hb
      · rename_i heqn
        exact absurd heqn (by simp)
      · split at hb
        · exact absurd hb (by simp)
        · simp only [Except.ok.injEq] at hb
          subst hb
          exact ⟨_, rfl, rfl, rfl⟩
  refine ⟨hpsub, ?_⟩
  intro hopt hnoc
  obtain ⟨sp, hsp, hdest, hreq⟩ := hpsub
  simp only [engineParse]
  split
  · rename_i e heqscan
    cases e with
    | exit => rfl
    | fuelOut => exact absurd heqscan (scanTokens_no_fuelOut _ _ _ _ _ _ _ (Nat.lt_succ_self _))
  · rename_i ns2 h2 seen2 heqscan
    have hnot : "command" ∉ seen2 :=
      scanTokens_not_seen "command" _ toks p.args p.sub _ h [] ns2 h2 seen2 heqscan
        (List.not_mem_nil _)
        (fun t ht s2 hs2 hts => hopt t ht s2 hs2 hts)
        (fun sp' hsp' => Or.inr (hnoc sp' hsp'))
    cases hrc : requiredCheck p.args seen2 with
    | false => simp [hrc]
    | true =>
      simp [hrc, hsp, hreq, hdest, hnot]

/-- C8 witness: the parser built for the global schema `{verbose: bool}` with
the `run` subcommand registers the required `command` selection, and parsing
`[]` exits fatally. -/
theorem C8_subcommand_mandatory_witness :
    (∃ sp, c3parser.sub = some sp ∧ sp.dest = "command" ∧ sp.required = true) ∧
    engineParse c3parser [] [] = .error .exit :=
  have hc8 := C8_subcommand_mandatory globalRunSchema [("run", runSchema)] [] c3parser [] [] rfl
  ⟨hc8.1, hc8.2 (fun t ht => absurd ht (List.not_mem_nil t))
    (fun _ _ t ht => absurd ht (List.not_mem_nil t))⟩

/-- C9: behavior resolution fails with the build-time configuration error
exactly when the field's declared type is absent (for every field with a
present declared type that branch is not taken), and a schema containing
such a field makes the whole pipeline fail with a configuration error while
registering arguments, before any argument is parsed. -/
theorem C9_missing_annotation_is_build_error :
    (∀ (field : FieldCfg) (modifiers : ActionModifiers),
        action_from_field_info field modifiers = .error .missingType ↔ field.ann = none) ∧
    (∀ (g : Schema) (subs : Option (List (String × Schema))) (args : List String)
        (actions : ActionModifiers) (h : Heap) (f : SchemaField),
        f ∈ g → f.info.ann = none →
        parse_args g subs args actions h = .error .configErr) := by
  constructor
  · intro field modifiers
    constructor
    · intro herr
      cases hann : field.ann with
      | none => rfl
      | some ann =>
        obtain ⟨a, ha⟩ := action_from_field_info_ok field modifiers ann hann
        rw [ha] at herr
        exact absurd herr (by simp)
    · intro hann
      unfold action_from_field_info
      rw [hann]
  · intro g subs args actions h f hf hann
    have hb := addModelToParser_error g [] f hf hann
    simp [parse_args, buildParser, hb]

/-- C9 witness: the schema with the type-less field `bad` makes the pipeline
fail with a configuration error on any input, and the error branch is not
taken for a field with a present type. -/
theorem C9_missing_annotation_is_build_error_witness :
    parse_args badSchema none ["--bad", "x"] [] [] = .error .configErr ∧
    (action_from_field_info badField [] = .error .missingType ↔ badField.ann = none) :=
  ⟨C9_missing_annotation_is_build_error.2 badSchema none ["--bad", "x"] [] [] ⟨"bad", badField⟩
      (List.mem_singleton.mpr rfl) rfl,
   C9_missing_annotation_is_build_error.1 badField []⟩

/-- C10: in `MultipleAction.__call__`, when the value currently stored for
the field is `None` or the `PydanticUndefined` sentinel (or the attribute is
absent), the occurrence starts from a freshly allocated list holding exactly
the supplied values; consequently a required `Multiple` field yields exactly
the tokens supplied, in order, through the whole pipeline. -/
theorem C10_fresh_accumulator :
    (∀ (ns : NS) (h : Heap) (dest : String) (vs : List PyVal),
        (NS.get ns dest = some .pynone ∨ NS.get ns dest = some .undefined ∨
         NS.get ns dest = none) →
        NS.get (multipleCall ns h dest vs).1 dest = some (.listRef h.length) ∧
        Heap.getL (multipleCall ns h dest vs).2 h.length = vs) ∧
    parse_args tagsSchema none ["--tags", "a", "b"] [] [] =
      .ok (([("tags", .vlist [.vstr "a", .vstr "b"])], none), [[.pystr "a", .pystr "b"]]) := by
  constructor
  · intro ns h dest vs hcur
    rcases hcur with hc | hc | hc <;>
      · simp only [multipleCall, hc, Option.getD_some, Option.getD_none]
        exact ⟨NS.get_set ns dest _, Heap.getL_alloc h vs⟩
  · rfl

/-- C10 witness: a first `--tags a` occurrence on the undefined sentinel
starts from a fresh list holding exactly `["a"]`. -/
theorem C10_fresh_accumulator_witness :
    NS.get (multipleCall [("tags", .undefined)] [] "tags" [.pystr "a"]).1 "tags" =
      some (.listRef 0) ∧
    Heap.getL (multipleCall [("tags", .undefined)] [] "tags" [.pystr "a"]).2 0 = [.pystr "a"] :=
  C10_fresh_accumulator.1 [("tags", .undefined)] [] "tags" [.pystr "a"] (Or.inr (Or.inl rfl))

end Aphie
